import Mathlib

/-!
Verification of the glfont text-rendering core: the glyph-atlas builder
(truetype.go, LoadTrueTypeFont) and the text-layout engine (glfont.go,
Printf and Width).  Pure metric and packing computations are embedded
directly; GL calls, shader setup and the freetype rasterizer are external
collaborators and appear only through their results (an abstract Face and
a success flag for DrawString).  Go float32 arithmetic on the layout path
is modelled exactly over ℚ; Go int / int32 / fixed.Int26_6 values are
modelled as Int, with Go's arithmetic right shift `>> 6` as floor division
by 64.  A `none` result models a Go runtime panic (index out of range) or
an error return aborting the build.
-/

namespace Glfont

/-- Go's arithmetic right shift by 6 on a signed integer (`v >> 6`):
floor division by 64. -/
def shr6 (a : Int) : Int := Int.fdiv a 64

/-- Mirrors the Go struct `character` (truetype.go): atlas position `x, y`,
cell size `width, height`, `advance` in 1/64-pixel units, and the two
bearings, all Go ints. -/
structure character where
  x : Int
  y : Int
  width : Int
  height : Int
  advance : Int
  bearingH : Int
  bearingV : Int
deriving DecidableEq

/-- Mirrors the Go struct `Font` (glfont.go): the glyph table `fontChar`
and the atlas dimensions (float32 in Go).  The GPU handles (vao, vbo,
program, textureID) and the draw color are external rendering state with
no layout semantics. -/
structure Font where
  fontChar : List character
  atlasWidth : ℚ
  atlasHeight : ℚ
deriving DecidableEq

/-- Mirrors Go `type point [4]float32`: x, y, u, v. -/
abbrev point : Type := ℚ × ℚ × ℚ × ℚ

/-- A Go `error` result: `none` is nil. -/
abbrev GoError : Type := Option String

/-- The skip test shared by Printf (glfont.go line 108) and Width (line 173):
`int(runeIndex)-int(lowChar) > len(f.fontChar) || runeIndex < lowChar`,
with `lowChar = 32`. -/
abbrev skipRune (tableLen : Nat) (c : Nat) : Prop :=
  (c : Int) - 32 > (tableLen : Int) ∨ (c : Int) < 32

/-- The loop of Width (glfont.go lines 167-184), accumulating
`float32(ch.advance >> 6) * scale`.  `none` models the index-out-of-range
panic of `f.fontChar[runeIndex-lowChar]`. -/
def widthLoop (f : Font) (scale : ℚ) (acc : ℚ) : List Nat → Option ℚ
  | [] => some acc
  | c :: cs =>
    if skipRune f.fontChar.length c then widthLoop f scale acc cs
    else
      match f.fontChar[c - 32]? with
      | none => none
      | some ch => widthLoop f scale (acc + (shr6 ch.advance : ℚ) * scale) cs

/-- `Width` (glfont.go lines 154-187).  `text` is the rune sequence produced
by `fmt.Sprintf` (formatting is external); the debug print on a skipped rune
is an external side effect. -/
def Width (f : Font) (scale : ℚ) (text : List Nat) : Option ℚ :=
  if text.length = 0 then some 0 else widthLoop f scale 0 text

/-- The running state of Printf's layout loop: the vertex list `coords` and
the pen position `x` (the vertical pen position never changes). -/
structure PrintfState where
  coords : List point
  x : ℚ
deriving DecidableEq

/-- The six vertices Printf appends for one retained rune
(glfont.go lines 117-133). -/
def charQuad (f : Font) (ch : character) (x y scale : ℚ) : List point :=
  let xpos := x + (ch.bearingH : ℚ) * scale
  let ypos := y - ((ch.height - ch.bearingV : Int) : ℚ) * scale
  let w := (ch.width : ℚ) * scale
  let h := (ch.height : ℚ) * scale
  let x1 := xpos
  let x2 := xpos + w
  let y1 := ypos
  let y2 := ypos + h
  [ (x1, y1, (ch.x : ℚ) / f.atlasWidth, (ch.y : ℚ) / f.atlasHeight),
    (x2, y1, ((ch.x + ch.width : Int) : ℚ) / f.atlasWidth, (ch.y : ℚ) / f.atlasHeight),
    (x1, y2, (ch.x : ℚ) / f.atlasWidth, ((ch.y + ch.height : Int) : ℚ) / f.atlasHeight),
    (x2, y1, ((ch.x + ch.width : Int) : ℚ) / f.atlasWidth, (ch.y : ℚ) / f.atlasHeight),
    (x1, y2, (ch.x : ℚ) / f.atlasWidth, ((ch.y + ch.height : Int) : ℚ) / f.atlasHeight),
    (x2, y2, ((ch.x + ch.width : Int) : ℚ) / f.atlasWidth, ((ch.y + ch.height : Int) : ℚ) / f.atlasHeight) ]

/-- The loop of Printf (glfont.go lines 103-137): per retained rune, append
the six vertices and advance the pen by `float32(ch.advance >> 6) * scale`. -/
def printfLoop (f : Font) (y scale : ℚ) (st : PrintfState) : List Nat → Option PrintfState
  | [] => some st
  | c :: cs =>
    if skipRune f.fontChar.length c then printfLoop f y scale st cs
    else
      match f.fontChar[c - 32]? with
      | none => none
      | some ch =>
        printfLoop f y scale
          { coords := st.coords ++ charQuad f ch st.x y scale,
            x := st.x + (shr6 ch.advance : ℚ) * scale } cs

/-- `Printf` (glfont.go lines 81-151): returns the emitted vertex list, the
final pen x position, and the Go error result (nil on both return paths).
Blend-state changes, uniform updates, the buffer upload and the draw call
are external GL side effects carrying `coords`. -/
def Printf (f : Font) (x y scale : ℚ) (text : List Nat) :
    Option (List point × ℚ × GoError) :=
  if text.length = 0 then some ([], x, none)
  else (printfLoop f y scale ⟨[], x⟩ text).map (fun st => (st.coords, st.x, none))

/-- The contribution of one code point to the spec's Measure sum (§8): code
points in `[32, 32 + tableSize)` contribute `(advance >> 6) * scale`, all
others contribute 0. -/
def specTerm (f : Font) (scale : ℚ) (c : Nat) : ℚ :=
  if 32 ≤ c ∧ c < 32 + f.fontChar.length then
    match f.fontChar[c - 32]? with
    | some ch => (shr6 ch.advance : ℚ) * scale
    | none => 0
  else 0

/-- Definition following the words of the spec (§8), for comparison with
`Width`: the sum of `(advance >> 6) * scale` over the code points of `text`
that lie in `[32, 32 + tableSize)`; all other code points contribute 0. -/
def measureSpec (f : Font) (scale : ℚ) (text : List Nat) : ℚ :=
  (text.map (specTerm f scale)).sum

/-- A 26.6 fixed-point bounding box, as in freetype's `fixed.Rectangle26_6`. -/
structure BBox where
  minX : Int
  minY : Int
  maxX : Int
  maxY : Int
deriving DecidableEq

/-- Abstraction of the freetype objects one run of LoadTrueTypeFont consults:
`glyphBounds ch` models `ttfFace.GlyphBounds(ch)` (`none` when not ok),
returning the bounds and the advance; `fontBounds` models
`ttf.Bounds(fixed.Int26_6(scale))`; `drawOk ch` models whether
`c.DrawString` succeeds for `ch`.  The face options and the scale are fixed
for one build, so they are folded into the Face. -/
structure Face where
  glyphBounds : Nat → Option (BBox × Int)
  fontBounds : BBox
  drawOk : Nat → Bool

/-- The index sequence of the Go loop `for ch := low; ch <= high; ch++`. -/
def rangeList (low high : Nat) : List Nat :=
  (List.range (high + 1 - low)).map (fun i => low + i)

/-- The pre-pass of LoadTrueTypeFont (truetype.go lines 59-69): the running
maximum of the raw glyph heights `(gBnd.Max.Y - gBnd.Min.Y) >> 6`, starting
from 0; fails when GlyphBounds is not ok. -/
def lineHeightLoop (face : Face) (acc : Int) : List Nat → Option Int
  | [] => some acc
  | ch :: rest =>
    match face.glyphBounds ch with
    | none => none
    | some (b, _) => lineHeightLoop face (max acc (shr6 (b.maxY - b.minY))) rest

/-- The cell-dimension computation with degenerate fallback (truetype.go
lines 90-104): yields the effective bounds used for the metrics together
with `(gw, gh)`.  When either raw dimension is zero the font's overall
bounding box is substituted (rebinding `gBnd`), and if either dimension is
still zero both are clamped to 1. -/
def glyphDims (b fb : BBox) : BBox × Int × Int :=
  let gh := shr6 (b.maxY - b.minY)
  let gw := shr6 (b.maxX - b.minX)
  if gw = 0 ∨ gh = 0 then
    let gw2 := shr6 (fb.maxX - fb.minX)
    let gh2 := shr6 (fb.maxY - fb.minY)
    if gw2 = 0 ∨ gh2 = 0 then (fb, 1, 1) else (fb, gw2, gh2)
  else (b, gw, gh)

/-- The cursor and the glyph table accumulated by the main build loop. -/
structure BuildState where
  x : Int
  y : Int
  chars : List character
deriving DecidableEq

/-- One iteration of the main glyph loop (truetype.go lines 82-150): record
the character at the cursor, advance the cursor by `gw + margin` with
`margin = 2`, wrap to `(0, y + lineHeight + margin)` when
`x + gw + margin > atlasWidth`, then draw the glyph (external rasterization
whose error result is `drawOk`) and append the character. -/
def buildStep (face : Face) (lineH : Int) (st : BuildState) (ch : Nat) :
    Option BuildState :=
  match face.glyphBounds ch with
  | none => none
  | some (b, gAdv) =>
    let d := glyphDims b face.fontBounds
    let g := d.1
    let gw := d.2.1
    let gh := d.2.2
    let char : character :=
      { x := st.x, y := st.y, width := gw, height := gh, advance := gAdv,
        bearingH := shr6 g.minX, bearingV := shr6 g.maxY }
    let x1 := st.x + gw + 2
    let x2 := if x1 + gw + 2 > 1024 then 0 else x1
    let y2 := if x1 + gw + 2 > 1024 then st.y + lineH + 2 else st.y
    if face.drawOk ch then some ⟨x2, y2, st.chars ++ [char]⟩ else none

/-- The main glyph loop of LoadTrueTypeFont over the code-point range. -/
def buildLoop (face : Face) (lineH : Int) (st : BuildState) :
    List Nat → Option BuildState
  | [] => some st
  | ch :: rest =>
    match buildStep face lineH st ch with
    | none => none
    | some st1 => buildLoop face lineH st1 rest

/-- `LoadTrueTypeFont` (truetype.go lines 34-183): the pre-pass computes
lineHeight, then the main loop packs every glyph of `[low, high]` starting
from the cursor `(margin, margin) = (2, 2)`; the atlas is 1024 × 1024.
Texture and vertex-buffer setup are external GL side effects. -/
def LoadTrueTypeFont (face : Face) (low high : Nat) : Option Font :=
  match lineHeightLoop face 0 (rangeList low high) with
  | none => none
  | some lh =>
    (buildLoop face lh ⟨2, 2, []⟩ (rangeList low high)).map
      (fun st => { fontChar := st.chars, atlasWidth := 1024, atlasHeight := 1024 })

/-- `LoadFont` (glfont.go lines 42-63): shader compilation and the
resolution uniform are external; the build is
`LoadTrueTypeFont(program, fd, scale, 32, 127, LeftToRight)`. -/
def LoadFont (face : Face) : Option Font := LoadTrueTypeFont face 32 127

/-- Two glyph cells `[x, x+width) × [y, y+height)` do not overlap. -/
abbrev rectDisjoint (a b : character) : Prop :=
  a.x + a.width ≤ b.x ∨ b.x + b.width ≤ a.x ∨
  a.y + a.height ≤ b.y ∨ b.y + b.height ≤ a.y

/-- A glyph cell lies inside the 1024 × 1024 atlas surface. -/
abbrev inAtlasBounds (c : character) : Prop :=
  0 ≤ c.x ∧ 0 ≤ c.y ∧ c.x + c.width ≤ 1024 ∧ c.y + c.height ≤ 1024

/-- The advance the face reports for a code point (0 when GlyphBounds fails;
only used at code points where it succeeds). -/
def advOf (face : Face) (ch : Nat) : Int :=
  match face.glyphBounds ch with
  | some (_, adv) => adv
  | none => 0

/-- The raw (pre-fallback) glyph height `(gBnd.Max.Y - gBnd.Min.Y) >> 6` the
pre-pass of LoadTrueTypeFont maximises over (0 when GlyphBounds fails; only
used at code points where it succeeds). -/
def rawHeight (face : Face) (ch : Nat) : Int :=
  match face.glyphBounds ch with
  | some (b, _) => shr6 (b.maxY - b.minY)
  | none => 0

/-- The maximum height recorded in a glyph table (floored at 0). -/
def maxCharHeight (l : List character) : Int :=
  l.foldr (fun c acc => max c.height acc) 0

/-- The character record one iteration of the build loop appends for bounds
`b` and advance `adv`, with the cursor at `(st.x, st.y)`. -/
def builtChar (face : Face) (st : BuildState) (b : BBox) (adv : Int) : character :=
  let d := glyphDims b face.fontBounds
  ⟨st.x, st.y, d.2.1, d.2.2, adv, shr6 d.1.minX, shr6 d.1.maxY⟩

/-- A bounding box is well formed: min ≤ max in both axes (true of every
rectangle freetype reports). -/
abbrev BBox.wf (b : BBox) : Prop := b.minX ≤ b.maxX ∧ b.minY ≤ b.maxY

/-- A one-glyph font for concrete evaluations: glyph cell 3 × 3 at (2, 2),
advance 1920 (thirty pixels). -/
def cfont1 : Font := ⟨[⟨2, 2, 3, 3, 1920, 0, 3⟩], 1024, 1024⟩

/-- A well-behaved concrete face: every glyph has 26.6 bounds (0,0)-(192,192),
so a 3 × 3 pixel cell, and advance equal to its own code point (which makes
the built table indexable by eye). -/
def wface : Face :=
  ⟨fun ch => some (⟨0, 0, 192, 192⟩, (ch : Int)), ⟨0, 0, 640, 640⟩, fun _ => true⟩

/-- The font LoadFont builds from `wface`. -/
def wfont96 : Font := (LoadFont wface).get (by decide)

/-- The font LoadTrueTypeFont builds from `wface` over the range [32, 33]. -/
def wfont2 : Font := ⟨[⟨2, 2, 3, 3, 32, 0, 3⟩, ⟨7, 2, 3, 3, 33, 0, 3⟩], 1024, 1024⟩

/-- A face exercising the degenerate-glyph fallback: code point 32 has empty
glyph bounds, every other code point a 3 × 3 cell; the font-wide bounding box
is 1000 × 2000 pixels, so the fallback cell dwarfs both the atlas and the
pre-pass lineHeight. -/
def cface5 : Face :=
  ⟨fun ch => if ch = 32 then some (⟨0, 0, 0, 0⟩, 64) else some (⟨0, 0, 192, 192⟩, 64),
   ⟨0, 0, 64000, 128000⟩, fun _ => true⟩

end Glfont

namespace Glfont

/-- Width's loop equals Printf's loop on the pen coordinate: for every state
and accumulator, the width accumulated over `cs` is the pen displacement the
layout loop produces over `cs`, both `none` exactly on the same panics. -/
theorem widthLoop_eq_printfLoop (f : Font) (y scale : ℚ) :
    ∀ (cs : List Nat) (st : PrintfState) (acc : ℚ),
      widthLoop f scale acc cs =
        (printfLoop f y scale st cs).map (fun s => acc + (s.x - st.x)) := by
  intro cs
  induction cs with
  | nil =>
    intro st acc
    simp [widthLoop, printfLoop]
  | cons c cs ih =>
    intro st acc
    by_cases h : skipRune f.fontChar.length c
    · simp only [widthLoop, printfLoop, if_pos h]
      exact ih st acc
    · rcases hch : f.fontChar[c - 32]? with _ | ch
      · simp [widthLoop, printfLoop, if_neg h, hch]
      · simp only [widthLoop, printfLoop, if_neg h, hch]
        have hfun : (fun s : PrintfState => acc + (s.x - st.x))
            = fun s : PrintfState =>
                (acc + (shr6 ch.advance : ℚ) * scale)
                  + (s.x - (st.x + (shr6 ch.advance : ℚ) * scale)) :=
          funext fun s => by ring
        rw [hfun]
        exact ih _ _

/-- C3: for every font, pen origin, scale and text, the value Width returns
equals the total pen displacement Printf accumulates over its emitted quads
for the same scale and text (and both panic on exactly the same inputs):
both run the same lookup, skip and advance accumulation. -/
theorem width_eq_printf_displacement (f : Font) (x y scale : ℚ) (text : List Nat) :
    (Printf f x y scale text).map (fun r => r.2.1 - x) = Width f scale text := by
  unfold Printf Width
  by_cases h : text.length = 0
  · simp [h]
  · simp only [if_neg h]
    rw [widthLoop_eq_printfLoop f y scale text ⟨[], x⟩ 0, Option.map_map]
    apply congrFun
    apply congrArg
    funext s
    simp [Function.comp]

/-- C9: an empty formatted text is not an error: Width returns exactly 0 and
Printf emits zero quads (and moves the pen nowhere). -/
theorem empty_text_zero_width_no_quads (f : Font) (x y scale : ℚ) :
    Width f scale [] = some 0 ∧ Printf f x y scale [] = some ([], x, none) := by
  constructor <;> rfl

/-- C10: whenever Printf returns (does not panic), its Go error result is
nil: both return paths of Printf yield a nil error. -/
theorem printf_error_always_nil (f : Font) (x y scale : ℚ) (text : List Nat)
    (r : List point × ℚ × GoError) (h : Printf f x y scale text = some r) :
    r.2.2 = none := by
  unfold Printf at h
  by_cases he : text.length = 0
  · rw [if_pos he] at h
    cases h
    rfl
  · rw [if_neg he] at h
    rcases Option.map_eq_some'.mp h with ⟨st, _, rfl⟩
    rfl

/-- Witness for C10 at a concrete input. -/
theorem printf_error_always_nil_witness :
    (([], 0, none) : List point × ℚ × GoError).2.2 = none :=
  printf_error_always_nil cfont1 0 0 1 [] ([], 0, none) rfl

/-- C1 (code bug, concrete evaluation): on a font whose glyph table has one
entry, runes below 32 and runes with `c - 32 > tableSize` are skipped with no
quad, no advance and no error, exactly as the claim states; but at the
boundary `c - 32 = tableSize` (rune 33) the skip test `c - 32 > tableSize`
retains the rune and `f.fontChar[c-32]` indexes one past the end: both Width
and Printf panic instead of skipping. -/
theorem skip_policy_boundary_panics :
    Width cfont1 1 [31] = some 0 ∧ Width cfont1 1 [34] = some 0 ∧
    Printf cfont1 0 0 1 [34] = some ([], 0, none) ∧
    Width cfont1 1 [33] = none ∧ Printf cfont1 0 0 1 [33] = none := by
  refine ⟨by decide, by decide, by decide, by decide, by decide⟩

/-- Width's loop returns the spec's partial sums, provided no code point sits
exactly at `32 + tableSize` (where the code panics instead). -/
theorem widthLoop_eq_specSum (f : Font) (scale : ℚ) :
    ∀ (cs : List Nat) (acc : ℚ), (∀ c ∈ cs, c ≠ 32 + f.fontChar.length) →
      widthLoop f scale acc cs = some (acc + measureSpec f scale cs) := by
  intro cs
  induction cs with
  | nil =>
    intro acc _
    simp [widthLoop, measureSpec]
  | cons c cs ih =>
    intro acc h
    have hne : c ≠ 32 + f.fontChar.length := h c (List.mem_cons_self c cs)
    have hrest : ∀ c' ∈ cs, c' ≠ 32 + f.fontChar.length :=
      fun c' hc' => h c' (List.mem_cons_of_mem c hc')
    by_cases hs : skipRune f.fontChar.length c
    · have hout : ¬ (32 ≤ c ∧ c < 32 + f.fontChar.length) := by
        rcases hs with hs | hs <;> omega
      simp only [widthLoop, if_pos hs, measureSpec, List.map_cons, List.sum_cons,
        specTerm, if_neg hout]
      rw [ih acc hrest]
      simp only [measureSpec, Option.some.injEq]
      ring
    · have hlt : c - 32 < f.fontChar.length := by
        simp only [skipRune, not_or, not_lt] at hs
        omega
      have h32 : 32 ≤ c := by
        simp only [skipRune, not_or, not_lt] at hs
        omega
      have hin : 32 ≤ c ∧ c < 32 + f.fontChar.length := by omega
      have hch := List.getElem?_eq_getElem hlt
      simp only [widthLoop, if_neg hs, hch, measureSpec, List.map_cons, List.sum_cons,
        specTerm, if_pos hin]
      rw [ih _ hrest]
      simp only [measureSpec, Option.some.injEq]
      ring

/-- C4 (counterexample to the claim as stated): on a font with a one-entry
table, Width applied to a text holding the boundary code point 33 = 32 +
tableSize does not return the spec's sum (which is 0, the code point lying
outside `[32, 32 + tableSize)`): it panics. -/
theorem width_not_specSum_at_boundary :
    Width cfont1 2 [33] ≠ some (measureSpec cfont1 2 [33]) ∧
    Width cfont1 2 [33] = none := by
  have h : Width cfont1 2 [33] = none := by decide
  rw [h]
  exact ⟨by simp, rfl⟩

/-- C4 (amended): for every font, scale and text in which no code point
equals `32 + tableSize` exactly, Width returns the sum of
`(advance >> 6) * scale` over the code points of text lying in
`[32, 32 + tableSize)`, code points outside that range contributing zero. -/
theorem width_eq_measureSpec (f : Font) (scale : ℚ) (text : List Nat)
    (h : ∀ c ∈ text, c ≠ 32 + f.fontChar.length) :
    Width f scale text = some (measureSpec f scale text) := by
  unfold Width
  by_cases he : text.length = 0
  · rw [if_pos he, List.length_eq_zero.mp he]
    simp [measureSpec]
  · rw [if_neg he, widthLoop_eq_specSum f scale text 0 h]
    simp

/-- Witness for the amended C4 at a concrete input: one in-range code point,
one skipped code point above the table. -/
theorem width_eq_measureSpec_witness :
    Width cfont1 2 [32, 34] = some (measureSpec cfont1 2 [32, 34]) :=
  width_eq_measureSpec cfont1 2 [32, 34] (by decide)

/-- C8: each retained code point processed by Printf's loop contributes
exactly six vertices, two triangles covering `(xpos, ypos)`-`(xpos + w,
ypos + h)` with `xpos = penX + bearingHorizontal * scale`, `ypos = penY -
(height - bearingVertical) * scale`, `w = width * scale`, `h = height *
scale`, each vertex carrying the glyph's atlas-rectangle corner divided by
the atlas width and height (no scale factor); the pen then advances by
`(advance >> 6) * scale`. -/
theorem printf_retained_emits_quad (f : Font) (y scale : ℚ) (st : PrintfState)
    (c : Nat) (ch : character) (cs : List Nat)
    (h32 : 32 ≤ c) (hch : f.fontChar[c - 32]? = some ch) :
    printfLoop f y scale st (c :: cs) =
      printfLoop f y scale
        ⟨st.coords ++
          [ (st.x + (ch.bearingH : ℚ) * scale,
             y - ((ch.height - ch.bearingV : Int) : ℚ) * scale,
             (ch.x : ℚ) / f.atlasWidth, (ch.y : ℚ) / f.atlasHeight),
            (st.x + (ch.bearingH : ℚ) * scale + (ch.width : ℚ) * scale,
             y - ((ch.height - ch.bearingV : Int) : ℚ) * scale,
             ((ch.x + ch.width : Int) : ℚ) / f.atlasWidth, (ch.y : ℚ) / f.atlasHeight),
            (st.x + (ch.bearingH : ℚ) * scale,
             y - ((ch.height - ch.bearingV : Int) : ℚ) * scale + (ch.height : ℚ) * scale,
             (ch.x : ℚ) / f.atlasWidth, ((ch.y + ch.height : Int) : ℚ) / f.atlasHeight),
            (st.x + (ch.bearingH : ℚ) * scale + (ch.width : ℚ) * scale,
             y - ((ch.height - ch.bearingV : Int) : ℚ) * scale,
             ((ch.x + ch.width : Int) : ℚ) / f.atlasWidth, (ch.y : ℚ) / f.atlasHeight),
            (st.x + (ch.bearingH : ℚ) * scale,
             y - ((ch.height - ch.bearingV : Int) : ℚ) * scale + (ch.height : ℚ) * scale,
             (ch.x : ℚ) / f.atlasWidth, ((ch.y + ch.height : Int) : ℚ) / f.atlasHeight),
            (st.x + (ch.bearingH : ℚ) * scale + (ch.width : ℚ) * scale,
             y - ((ch.height - ch.bearingV : Int) : ℚ) * scale + (ch.height : ℚ) * scale,
             ((ch.x + ch.width : Int) : ℚ) / f.atlasWidth,
             ((ch.y + ch.height : Int) : ℚ) / f.atlasHeight) ],
          st.x + (shr6 ch.advance : ℚ) * scale⟩ cs := by
  have hlt : c - 32 < f.fontChar.length := by
    rcases List.getElem?_eq_some.mp hch with ⟨hl, _⟩
    exact hl
  have hns : ¬ skipRune f.fontChar.length c := by
    simp only [skipRune, not_or, not_lt]
    omega
  simp only [printfLoop, if_neg hns, hch, charQuad]

/-- Witness for C8 at a concrete input: the single glyph of `cfont1` at pen
(0, 0) and scale 1. -/
theorem printf_retained_emits_quad_witness :
    printfLoop cfont1 0 1 ⟨[], 0⟩ [32] =
      printfLoop cfont1 0 1
        ⟨([] : List point) ++
          [ (0 + ((0 : Int) : ℚ) * 1, 0 - (((3 : Int) - 3 : Int) : ℚ) * 1,
             ((2 : Int) : ℚ) / 1024, ((2 : Int) : ℚ) / 1024),
            (0 + ((0 : Int) : ℚ) * 1 + ((3 : Int) : ℚ) * 1,
             0 - (((3 : Int) - 3 : Int) : ℚ) * 1,
             (((2 : Int) + 3 : Int) : ℚ) / 1024, ((2 : Int) : ℚ) / 1024),
            (0 + ((0 : Int) : ℚ) * 1,
             0 - (((3 : Int) - 3 : Int) : ℚ) * 1 + ((3 : Int) : ℚ) * 1,
             ((2 : Int) : ℚ) / 1024, (((2 : Int) + 3 : Int) : ℚ) / 1024),
            (0 + ((0 : Int) : ℚ) * 1 + ((3 : Int) : ℚ) * 1,
             0 - (((3 : Int) - 3 : Int) : ℚ) * 1,
             (((2 : Int) + 3 : Int) : ℚ) / 1024, ((2 : Int) : ℚ) / 1024),
            (0 + ((0 : Int) : ℚ) * 1,
             0 - (((3 : Int) - 3 : Int) : ℚ) * 1 + ((3 : Int) : ℚ) * 1,
             ((2 : Int) : ℚ) / 1024, (((2 : Int) + 3 : Int) : ℚ) / 1024),
            (0 + ((0 : Int) : ℚ) * 1 + ((3 : Int) : ℚ) * 1,
             0 - (((3 : Int) - 3 : Int) : ℚ) * 1 + ((3 : Int) : ℚ) * 1,
             (((2 : Int) + 3 : Int) : ℚ) / 1024, (((2 : Int) + 3 : Int) : ℚ) / 1024) ],
          0 + ((shr6 1920 : Int) : ℚ) * 1⟩ [] :=
  printf_retained_emits_quad cfont1 0 1 ⟨[], 0⟩ 32 ⟨2, 2, 3, 3, 1920, 0, 3⟩ []
    (by decide) (by decide)

/-- Anatomy of a successful build step: GlyphBounds succeeded, the recorded
character is `builtChar` placed at the cursor, and the cursor either wrapped
to `(0, y + lineHeight + 2)` or advanced to `(x + gw + 2, y)`. -/
theorem buildStep_eq_some (face : Face) (lh : Int) (st st' : BuildState) (ch : Nat)
    (h : buildStep face lh st ch = some st') :
    ∃ b adv, face.glyphBounds ch = some (b, adv) ∧
      st'.chars = st.chars ++ [builtChar face st b adv] ∧
      ((st'.x = 0 ∧ st'.y = st.y + lh + 2) ∨
        (st'.x = st.x + (glyphDims b face.fontBounds).2.1 + 2 ∧ st'.y = st.y)) := by
  rcases hg : face.glyphBounds ch with _ | p
  · simp [buildStep, hg] at h
  · obtain ⟨b, adv⟩ := p
    refine ⟨b, adv, rfl, ?_⟩
    by_cases hd : face.drawOk ch = true
    · simp only [buildStep, hg, hd, if_true] at h
      by_cases hw : st.x + (glyphDims b face.fontBounds).2.1 + 2
          + (glyphDims b face.fontBounds).2.1 + 2 > 1024
      · rw [if_pos hw, if_pos hw] at h
        cases h
        exact ⟨rfl, Or.inl ⟨rfl, rfl⟩⟩
      · rw [if_neg hw, if_neg hw] at h
        cases h
        exact ⟨rfl, Or.inr ⟨rfl, rfl⟩⟩
    · simp [buildStep, hg, hd] at h

/-- The build loop only appends characters: members persist. -/
theorem buildLoop_chars_mono (face : Face) (lh : Int) :
    ∀ (l : List Nat) (st st' : BuildState),
      buildLoop face lh st l = some st' →
      ∀ c ∈ st.chars, c ∈ st'.chars := by
  intro l
  induction l with
  | nil =>
    intro st st' h
    simp only [buildLoop] at h
    cases h
    exact fun c hc => hc
  | cons ch rest ih =>
    intro st st' h
    simp only [buildLoop] at h
    rcases hs : buildStep face lh st ch with _ | st1
    · rw [hs] at h; cases h
    · rw [hs] at h
      obtain ⟨b, adv, _, hchars, _⟩ := buildStep_eq_some face lh st st1 ch hs
      intro c hc
      exact ih st1 st' h c (hchars ▸ List.mem_append_left _ hc)

/-- The advances recorded by the build loop are the face's advances for the
processed code points, in order. -/
theorem buildLoop_map_advance (face : Face) (lh : Int) :
    ∀ (l : List Nat) (st st' : BuildState),
      buildLoop face lh st l = some st' →
      st'.chars.map character.advance
        = st.chars.map character.advance ++ l.map (advOf face) := by
  intro l
  induction l with
  | nil =>
    intro st st' h
    simp only [buildLoop] at h
    cases h
    simp
  | cons ch rest ih =>
    intro st st' h
    simp only [buildLoop] at h
    rcases hs : buildStep face lh st ch with _ | st1
    · rw [hs] at h; cases h
    · rw [hs] at h
      obtain ⟨b, adv, hg, hchars, _⟩ := buildStep_eq_some face lh st st1 ch hs
      rw [ih st1 st' h, hchars]
      simp [advOf, hg, builtChar]

/-- The pre-pass accumulator never decreases. -/
theorem lineHeightLoop_le (face : Face) :
    ∀ (l : List Nat) (acc lh : Int), lineHeightLoop face acc l = some lh → acc ≤ lh := by
  intro l
  induction l with
  | nil =>
    intro acc lh h
    simp only [lineHeightLoop, Option.some.injEq] at h
    omega
  | cons c cs ih =>
    intro acc lh h
    simp only [lineHeightLoop] at h
    rcases hg : face.glyphBounds c with _ | p
    · rw [hg] at h; cases h
    · obtain ⟨b, adv⟩ := p
      rw [hg] at h
      exact le_trans (le_max_left _ _) (ih _ _ h)

/-- When GlyphBounds succeeds over the whole list, the pre-pass is the
running maximum of the raw glyph heights. -/
theorem lineHeightLoop_eq_foldl (face : Face) :
    ∀ (l : List Nat) (acc : Int), (∀ c ∈ l, (face.glyphBounds c).isSome = true) →
      lineHeightLoop face acc l
        = some (l.foldl (fun a c => max a (rawHeight face c)) acc) := by
  intro l
  induction l with
  | nil =>
    intro acc _
    simp [lineHeightLoop]
  | cons c cs ih =>
    intro acc h
    have hc := h c (List.mem_cons_self c cs)
    rcases hg : face.glyphBounds c with _ | p
    · rw [hg] at hc; cases hc
    · obtain ⟨b, adv⟩ := p
      simp only [lineHeightLoop, hg, List.foldl_cons]
      rw [ih _ (fun c' hc' => h c' (List.mem_cons_of_mem c hc'))]
      simp [rawHeight, hg]

/-- C7 (counterexample to the claim as stated): on `cface5` over [32, 33],
the pre-pass lineHeight is 3 (the maximum of the raw heights 0 and 3), while
the maximum height recorded in the glyph table is 2000 (the degenerate
fallback substituted the font-wide bounding box for code point 32 after the
pre-pass): the lineHeight used to advance the cursor is not the maximum of
the heights recorded in the table entries. -/
theorem lineHeight_not_max_recorded_height :
    lineHeightLoop cface5 0 (rangeList 32 33) = some 3 ∧
    (LoadTrueTypeFont cface5 32 33).map (fun f => maxCharHeight f.fontChar)
      = some 2000 ∧
    ((3 : Int) ≠ 2000) := by
  refine ⟨by decide, by decide, by decide⟩

/-- C7 (amended): the lineHeight used by the packer is computed in the
pre-pass as the running maximum, from 0, of the raw pre-fallback glyph
heights `(gBnd.Max.Y - gBnd.Min.Y) >> 6` over the whole range; and every
successful build step either wraps, resetting x to 0 and advancing y by
exactly lineHeight + margin, or leaves y unchanged. -/
theorem lineHeight_prepass_and_wrap (face : Face) (low high : Nat)
    (lh : Int) (st st' : BuildState) (ch : Nat)
    (hok : ∀ c ∈ rangeList low high, (face.glyphBounds c).isSome = true)
    (hstep : buildStep face lh st ch = some st') :
    lineHeightLoop face 0 (rangeList low high)
        = some ((rangeList low high).foldl (fun a c => max a (rawHeight face c)) 0) ∧
    ((st'.x = 0 ∧ st'.y = st.y + lh + 2) ∨ st'.y = st.y) := by
  refine ⟨lineHeightLoop_eq_foldl face (rangeList low high) 0 hok, ?_⟩
  obtain ⟨b, adv, _, _, hcursor⟩ := buildStep_eq_some face lh st st' ch hstep
  rcases hcursor with ⟨h1, h2⟩ | ⟨h1, h2⟩
  · exact Or.inl ⟨h1, h2⟩
  · exact Or.inr h2

/-- Witness for the amended C7 at a concrete input: `wface` over [32, 33] and
one concrete (non-wrapping) build step. -/
theorem lineHeight_prepass_and_wrap_witness :
    lineHeightLoop wface 0 (rangeList 32 33)
        = some ((rangeList 32 33).foldl (fun a c => max a (rawHeight wface c)) 0) ∧
    (((7 : Int) = 0 ∧ (2 : Int) = 2 + 3 + 2) ∨ (2 : Int) = 2) :=
  lineHeight_prepass_and_wrap wface 32 33 3 ⟨2, 2, []⟩ ⟨7, 2, [⟨2, 2, 3, 3, 32, 0, 3⟩]⟩ 32
    (by decide) (by decide)

/-- C2 (counterexample to the claim as stated): LoadFont passes `high = 127`,
not 126, so the font built from `wface` (whose advance for each code point is
the code point itself) has 96 table entries, the last built from code point
127 — not the 95 entries covering exactly 32 through 126 the claim states. -/
theorem loadFont_builds_code_point_127 :
    (LoadFont wface).map
        (fun f => (f.fontChar.length, (f.fontChar.map character.advance).getLast?))
      = some (96, some 127) ∧ (96 : Nat) ≠ 95 := by
  refine ⟨by decide, by decide⟩

/-- C2 (amended): LoadFont builds the font over the contiguous code-point
range with lowCodePoint = 32 and highCodePoint = 127 inclusive, so the glyph
table has 96 entries, the entry at index i recording the face's data (here,
the advance) for code point 32 + i. -/
theorem loadFont_covers_32_to_127 (face : Face) (f : Font)
    (hb : LoadFont face = some f) :
    f.fontChar.length = 96 ∧
    f.fontChar.map character.advance = (rangeList 32 127).map (advOf face) := by
  unfold LoadFont LoadTrueTypeFont at hb
  rcases hlh : lineHeightLoop face 0 (rangeList 32 127) with _ | lh
  · rw [hlh] at hb; cases hb
  · rw [hlh] at hb
    rcases Option.map_eq_some'.mp hb with ⟨st', hloop, rfl⟩
    have hadv := buildLoop_map_advance face lh (rangeList 32 127) ⟨2, 2, []⟩ st' hloop
    simp only [List.map_nil, List.nil_append] at hadv
    refine ⟨?_, hadv⟩
    have hlen := congrArg List.length hadv
    simp only [List.length_map] at hlen
    simpa using hlen

/-- Witness for the amended C2: the font LoadFont builds from `wface`. -/
theorem loadFont_covers_32_to_127_witness :
    wfont96.fontChar.length = 96 ∧
    wfont96.fontChar.map character.advance = (rangeList 32 127).map (advOf wface) :=
  loadFont_covers_32_to_127 wface wfont96 (by decide)

/-- Under well-formed bounding boxes, the cell dimensions the build computes
are positive: nonzero raw dimensions are positive; a zero dimension triggers
the fallback, whose dimensions are again positive or clamped to 1. -/
theorem glyphDims_pos (b fb : BBox) (hb : b.wf) (hfb : fb.wf) :
    0 < (glyphDims b fb).2.1 ∧ 0 < (glyphDims b fb).2.2 := by
  obtain ⟨hbx, hby⟩ := hb
  obtain ⟨hfx, hfy⟩ := hfb
  have h1 : 0 ≤ shr6 (b.maxX - b.minX) := Int.fdiv_nonneg (by omega) (by norm_num)
  have h2 : 0 ≤ shr6 (b.maxY - b.minY) := Int.fdiv_nonneg (by omega) (by norm_num)
  have h3 : 0 ≤ shr6 (fb.maxX - fb.minX) := Int.fdiv_nonneg (by omega) (by norm_num)
  have h4 : 0 ≤ shr6 (fb.maxY - fb.minY) := Int.fdiv_nonneg (by omega) (by norm_num)
  simp only [glyphDims]
  split_ifs with hz hz2
  · exact ⟨one_pos, one_pos⟩
  · push_neg at hz2
    exact ⟨lt_of_le_of_ne h3 (Ne.symm hz2.1), lt_of_le_of_ne h4 (Ne.symm hz2.2)⟩
  · push_neg at hz
    exact ⟨lt_of_le_of_ne h1 (Ne.symm hz.1), lt_of_le_of_ne h2 (Ne.symm hz.2)⟩

/-- The build loop preserves positivity of all recorded cell dimensions, for
well-formed faces. -/
theorem buildLoop_pos (face : Face) (lh : Int) (hfb : face.fontBounds.wf) :
    ∀ (l : List Nat) (st st' : BuildState),
      (∀ ch ∈ l, ∀ b adv, face.glyphBounds ch = some (b, adv) → b.wf) →
      buildLoop face lh st l = some st' →
      (∀ c ∈ st.chars, 0 < c.width ∧ 0 < c.height) →
      ∀ c ∈ st'.chars, 0 < c.width ∧ 0 < c.height := by
  intro l
  induction l with
  | nil =>
    intro st st' _ h hst
    simp only [buildLoop] at h
    cases h
    exact hst
  | cons ch rest ih =>
    intro st st' hwf h hst
    simp only [buildLoop] at h
    rcases hs : buildStep face lh st ch with _ | st1
    · rw [hs] at h; cases h
    · rw [hs] at h
      obtain ⟨b, adv, hg, hchars, _⟩ := buildStep_eq_some face lh st st1 ch hs
      refine ih st1 st' (fun ch' hc' => hwf ch' (List.mem_cons_of_mem ch hc')) h ?_
      intro c hc
      rw [hchars] at hc
      rcases List.mem_append.mp hc with hc | hc
      · exact hst c hc
      · have hbw : b.wf := hwf ch (List.mem_cons_self ch rest) b adv hg
        have hpos := glyphDims_pos b face.fontBounds hbw hfb
        simp only [List.mem_singleton] at hc
        subst hc
        simpa [builtChar] using hpos

/-- C6: every glyph entry of a successfully built font has positive width
and height — the degenerate fallback (font-wide bounding box, then a 1-pixel
clamp) rules out zero-area cells.  Freetype bounding boxes are well formed
(min ≤ max), which the abstract face records as a hypothesis. -/
theorem glyph_cell_positive (face : Face) (low high : Nat) (f : Font) (c : character)
    (hfb : face.fontBounds.wf)
    (hwf : ∀ ch ∈ rangeList low high, ∀ b adv, face.glyphBounds ch = some (b, adv) → b.wf)
    (hb : LoadTrueTypeFont face low high = some f)
    (hc : c ∈ f.fontChar) : 0 < c.width ∧ 0 < c.height := by
  unfold LoadTrueTypeFont at hb
  rcases hlh : lineHeightLoop face 0 (rangeList low high) with _ | lh
  · rw [hlh] at hb; cases hb
  · rw [hlh] at hb
    rcases Option.map_eq_some'.mp hb with ⟨st', hloop, rfl⟩
    exact buildLoop_pos face lh hfb (rangeList low high) ⟨2, 2, []⟩ st' hwf hloop
      (by simp) c hc

/-- Witness for C6 at a concrete input: the first glyph of the font built
from `wface` over [32, 33]. -/
theorem glyph_cell_positive_witness :
    0 < (⟨2, 2, 3, 3, 32, 0, 3⟩ : character).width ∧
    0 < (⟨2, 2, 3, 3, 32, 0, 3⟩ : character).height :=
  glyph_cell_positive wface 32 33 wfont2 ⟨2, 2, 3, 3, 32, 0, 3⟩
    (by decide)
    (by
      intro ch hm b adv h
      simp only [wface, Option.some.injEq, Prod.mk.injEq] at h
      obtain ⟨h1, h2⟩ := h
      rw [← h1]
      decide)
    (by decide) (by decide)

/-- Glyph-cell disjointness is symmetric. -/
theorem rectDisjoint_symm : Symmetric rectDisjoint := by
  intro a b h
  rcases h with h | h | h | h
  · exact Or.inr (Or.inl h)
  · exact Or.inl h
  · exact Or.inr (Or.inr (Or.inr h))
  · exact Or.inr (Or.inr (Or.inl h))

/-- C5 (counterexample to the claim as stated): on `cface5` over [32, 33] the
build succeeds, yet the fallback cell of code point 32 (1000 × 2000 at
(2, 2)) both overlaps the cell of code point 33 (placed at (0, 7) after a
wrap that advanced y by only lineHeight 3 + margin) and extends far below
the 1024 × 1024 atlas: the packing invariant fails. -/
theorem packing_invariant_counterexample :
    LoadTrueTypeFont cface5 32 33 =
      some ⟨[⟨2, 2, 1000, 2000, 64, 0, 2000⟩, ⟨0, 7, 3, 3, 64, 0, 3⟩], 1024, 1024⟩ ∧
    ¬ rectDisjoint ⟨2, 2, 1000, 2000, 64, 0, 2000⟩ ⟨0, 7, 3, 3, 64, 0, 3⟩ ∧
    ¬ inAtlasBounds ⟨2, 2, 1000, 2000, 64, 0, 2000⟩ := by
  refine ⟨by decide, by decide, by decide⟩

/-- The packing induction: when every computed cell width is nonnegative and
every computed cell height is at most lineHeight, the build loop keeps all
recorded cells pairwise disjoint.  The invariant carried along: every
recorded cell lies strictly above the current row, or in the current row
wholly left of the cursor (with its margin). -/
theorem buildLoop_pairwise (face : Face) (lh : Int) (hlh0 : 0 ≤ lh) :
    ∀ (l : List Nat) (st st' : BuildState),
      (∀ ch ∈ l, ∀ b adv, face.glyphBounds ch = some (b, adv) →
          0 ≤ (glyphDims b face.fontBounds).2.1 ∧
          (glyphDims b face.fontBounds).2.2 ≤ lh) →
      buildLoop face lh st l = some st' →
      (∀ c ∈ st.chars, 0 ≤ c.width ∧ c.height ≤ lh) →
      (∀ c ∈ st.chars, c.y + c.height ≤ st.y ∨
        (c.y = st.y ∧ c.x + c.width + 2 ≤ st.x)) →
      st.chars.Pairwise rectDisjoint →
      st'.chars.Pairwise rectDisjoint := by
  intro l
  induction l with
  | nil =>
    intro st st' _ h _ _ hp
    simp only [buildLoop] at h
    cases h
    exact hp
  | cons ch rest ih =>
    intro st st' hdims h hok hcur hp
    simp only [buildLoop] at h
    rcases hs : buildStep face lh st ch with _ | st1
    · rw [hs] at h; cases h
    · rw [hs] at h
      obtain ⟨b, adv, hg, hchars, hcursor⟩ := buildStep_eq_some face lh st st1 ch hs
      have hd := hdims ch (List.mem_cons_self ch rest) b adv hg
      have hnx : (builtChar face st b adv).x = st.x := rfl
      have hny : (builtChar face st b adv).y = st.y := rfl
      have hnw : (builtChar face st b adv).width = (glyphDims b face.fontBounds).2.1 := rfl
      have hnh : (builtChar face st b adv).height = (glyphDims b face.fontBounds).2.2 := rfl
      have hok1 : ∀ c ∈ st1.chars, 0 ≤ c.width ∧ c.height ≤ lh := by
        intro c hc
        rw [hchars] at hc
        rcases List.mem_append.mp hc with hc | hc
        · exact hok c hc
        · simp only [List.mem_singleton] at hc
          subst hc
          exact ⟨hnw ▸ hd.1, hnh ▸ hd.2⟩
      have hp1 : st1.chars.Pairwise rectDisjoint := by
        rw [hchars, List.pairwise_append]
        refine ⟨hp, List.pairwise_singleton _ _, ?_⟩
        intro a ha n hn
        simp only [List.mem_singleton] at hn
        subst hn
        rcases hcur a ha with hca | ⟨hca1, hca2⟩
        · exact Or.inr (Or.inr (Or.inl (by omega)))
        · exact Or.inl (by omega)
      have hcur1 : ∀ c ∈ st1.chars, c.y + c.height ≤ st1.y ∨
          (c.y = st1.y ∧ c.x + c.width + 2 ≤ st1.x) := by
        intro c hc
        rw [hchars] at hc
        rcases hcursor with ⟨hx1, hy1⟩ | ⟨hx1, hy1⟩
        · left
          rcases List.mem_append.mp hc with hc | hc
          · rcases hcur c hc with hcc | ⟨hcc1, hcc2⟩
            · omega
            · have hhc := (hok c hc).2
              omega
          · simp only [List.mem_singleton] at hc
            subst hc
            have hhd := hd.2
            omega
        · rcases List.mem_append.mp hc with hc | hc
          · rcases hcur c hc with hcc | ⟨hcc1, hcc2⟩
            · left; omega
            · right
              have hgw := hd.1
              exact ⟨by omega, by omega⟩
          · simp only [List.mem_singleton] at hc
            subst hc
            right
            exact ⟨by omega, by omega⟩
      exact ih st1 st' (fun ch' hch' => hdims ch' (List.mem_cons_of_mem ch hch'))
        h hok1 hcur1 hp1

/-- C5 (amended): in every successfully built font, any two distinct glyph
entries have disjoint atlas rectangles, provided every computed cell width
is nonnegative and every computed cell height is at most the pre-pass
lineHeight (both automatic in fonts that never trigger the degenerate
fallback); lying inside the 1024 × 1024 atlas bounds is not guaranteed (the
packer checks neither row overflow past the atlas height nor the width of
the next glyph before wrapping). -/
theorem atlas_cells_disjoint (face : Face) (low high : Nat) (lh : Int) (f : Font)
    (a b : character)
    (hlh : lineHeightLoop face 0 (rangeList low high) = some lh)
    (hdims : ∀ ch ∈ rangeList low high, ∀ bb adv,
        face.glyphBounds ch = some (bb, adv) →
        0 ≤ (glyphDims bb face.fontBounds).2.1 ∧
        (glyphDims bb face.fontBounds).2.2 ≤ lh)
    (hb : LoadTrueTypeFont face low high = some f)
    (ha : a ∈ f.fontChar) (hbm : b ∈ f.fontChar) (hab : a ≠ b) :
    rectDisjoint a b := by
  have hlh0 : (0 : Int) ≤ lh := lineHeightLoop_le face (rangeList low high) 0 lh hlh
  unfold LoadTrueTypeFont at hb
  rw [hlh] at hb
  rcases Option.map_eq_some'.mp hb with ⟨st', hloop, rfl⟩
  have hpw := buildLoop_pairwise face lh hlh0 (rangeList low high) ⟨2, 2, []⟩ st'
    hdims hloop (by simp) (by simp) (by simp)
  exact hpw.forall rectDisjoint_symm ha hbm hab

/-- Witness for the amended C5 at a concrete input: the two glyphs of the
font built from `wface` over [32, 33]. -/
theorem atlas_cells_disjoint_witness :
    rectDisjoint ⟨2, 2, 3, 3, 32, 0, 3⟩ ⟨7, 2, 3, 3, 33, 0, 3⟩ :=
  atlas_cells_disjoint wface 32 33 3 wfont2
    ⟨2, 2, 3, 3, 32, 0, 3⟩ ⟨7, 2, 3, 3, 33, 0, 3⟩
    (by decide)
    (by
      intro ch hm bb adv h
      simp only [wface, Option.some.injEq, Prod.mk.injEq] at h
      obtain ⟨h1, h2⟩ := h
      rw [← h1]
      decide)
    (by decide) (by decide) (by decide) (by decide)

end Glfont
